import Mathlib

/-!
# Verification of `wan/image2video.py` (WanI2V.generate and helpers)

A shallow embedding of the sampling orchestrator of the Wan2GP
image-to-video pipeline.  Tensors are modelled as (nested) lists of
rationals; the Python float arithmetic of the guidance formulas is
modelled exactly over `ℚ` (the constants involved — `1e-8`, `guide_scale`,
window fractions — are all exactly representable).  Control flow of
`generate` is modelled as an event trace so that ordering properties
(allocation before the solver-name check, cancellation before solver
steps, decode only on rank 0) can be stated.
-/

namespace WanI2V

/-! ## Guidance arithmetic (lines 30-41 and 397-411 of image2video.py)

`noise_pred_cond` / `noise_pred_uncond` are tensors of shape
`(batch, features)` after `.view(batch_size, -1)`; we model them as
`List (List ℚ)` — a list of batch rows. -/

/-- `torch.sum(positive_flat * negative_flat, dim=1)` restricted to one row. -/
def dotRow (p n : List ℚ) : ℚ := (List.zipWith (· * ·) p n).sum

/-- `torch.sum(negative_flat ** 2, dim=1)` restricted to one row. -/
def sqNormRow (n : List ℚ) : ℚ := (n.map (fun x => x ^ 2)).sum

/-- Embedding of `optimized_scale` (image2video.py lines 30-41):
per batch row, `st_star = dot_product / (squared_norm + 1e-8)`. -/
def optimized_scale (positive_flat negative_flat : List (List ℚ)) : List ℚ :=
  List.zipWith (fun p n => dotRow p n / (sqNormRow n + 1 / 100000000))
    positive_flat negative_flat

/-- Elementwise addition of two `(batch, features)` tensors. -/
def tAdd (a b : List (List ℚ)) : List (List ℚ) :=
  List.zipWith (List.zipWith (· + ·)) a b

/-- Elementwise subtraction of two `(batch, features)` tensors. -/
def tSub (a b : List (List ℚ)) : List (List ℚ) :=
  List.zipWith (List.zipWith (· - ·)) a b

/-- Scalar multiplication of a `(batch, features)` tensor. -/
def tSMul (c : ℚ) (a : List (List ℚ)) : List (List ℚ) :=
  a.map (fun row => row.map (fun x => c * x))

/-- `noise_pred_uncond *= alpha` where `alpha` has shape `(batch, 1, 1, 1)`:
each batch row is scaled by its own per-row scalar. -/
def rowScale (alphas : List ℚ) (a : List (List ℚ)) : List (List ℚ) :=
  List.zipWith (fun c row => row.map (fun x => c * x)) alphas a

/-- Embedding of the per-step guided-prediction combination
(image2video.py lines 397-411).  The pair `st` carries the two mutable
locals of the `if cfg_star_switch:` block: `st.1` is the value assigned to
`noise_pred` by the early branch (`noise_pred = noise_pred_text*0.`, line
408) and `st.2` is `noise_pred_uncond` after the block.  Line 411
(`noise_pred = noise_pred_uncond + guide_scale * (noise_pred_text -
noise_pred_uncond)`) executes unconditionally and overwrites `noise_pred`,
so `st.1` is dead — it is kept here to mirror the source faithfully. -/
def cfgStep (cfg_star_switch : Bool) (i cfg_zero_step : ℕ) (guide_scale : ℚ)
    (noise_pred_cond noise_pred_uncond : List (List ℚ)) : List (List ℚ) :=
  let noise_pred_text := noise_pred_cond
  let st : Option (List (List ℚ)) × List (List ℚ) :=
    if cfg_star_switch then
      let alpha := optimized_scale noise_pred_text noise_pred_uncond
      if i ≤ cfg_zero_step then
        (some (tSMul 0 noise_pred_text), noise_pred_uncond)
      else
        (none, rowScale alpha noise_pred_uncond)
    else (none, noise_pred_uncond)
  tAdd st.2 (tSMul guide_scale (tSub noise_pred_text st.2))

/-- A tensor of the same shape as `a` that is zero everywhere
(`N = 0` in the spec's words). -/
def zeroLike (a : List (List ℚ)) : List (List ℚ) :=
  a.map (fun row => row.map (fun _ => 0))

/-! ## Conditioning mask construction (image2video.py lines 194-201 and 230-242)

A mask frame is a `(lat_h, lat_w)` matrix of rationals (values `0`/`1`);
the mask before the final `view`/`transpose` is a list of frames along
the temporal axis. -/

/-- One all-ones mask frame of shape `(lat_h, lat_w)`
(a temporal slice of `torch.ones(1, frame_num, lat_h, lat_w)`). -/
def oneFrame (lat_h lat_w : ℕ) : List (List ℚ) :=
  List.replicate lat_h (List.replicate lat_w 1)

/-- Zero out a mask frame (the effect of `msk[:, a:b] = 0` on one slice). -/
def zeroOutFrame (f : List (List ℚ)) : List (List ℚ) :=
  f.map (fun r => r.map (fun _ => 0))

/-- Embedding of the slice assignment `msk[:, lo:hi] = 0`: frames with
temporal index in `[lo, hi)` are zeroed (the first argument `i` is the
index of the head of the remaining list). -/
def assignZeroFrom (lo hi : ℕ) : ℕ → List (List (List ℚ)) → List (List (List ℚ))
  | _, [] => []
  | i, f :: fs =>
      (if lo ≤ i ∧ i < hi then zeroOutFrame f else f) :: assignZeroFrom lo hi (i + 1) fs

/-- `torch.repeat_interleave(·, repeats=4, dim=1)` along the temporal axis. -/
def repeatInterleave4 (fs : List (List (List ℚ))) : List (List (List ℚ)) :=
  fs.flatMap (fun f => List.replicate 4 f)

/-- Embedding of the temporal mask construction, lines 230-240 of
image2video.py, up to (but not including) the final `view`/`transpose`:
`msk[:, 1:-1] = 0` (resp. `msk[:, 1:] = 0`), then concatenation of the
4×-replicated first frame, the middle slice, and (in the
`add_frames_for_end_image` case) the 4×-replicated last frame.
`msk[:, 0:1]` is `take 1`, `msk[:, 1:-1]` is `(drop 1).dropLast`,
`msk[:, -1:]` is `drop (length - 1)`. -/
def buildMsk (frame_num lat_h lat_w : ℕ)
    (any_end_frame add_frames_for_end_image : Bool) : List (List (List ℚ)) :=
  let msk := List.replicate frame_num (oneFrame lat_h lat_w)
  if any_end_frame then
    let msk := assignZeroFrom 1 (frame_num - 1) 0 msk
    if add_frames_for_end_image then
      repeatInterleave4 (msk.take 1) ++ (msk.drop 1).dropLast ++
        repeatInterleave4 (msk.drop (msk.length - 1))
    else
      repeatInterleave4 (msk.take 1) ++ msk.drop 1
  else
    let msk := assignZeroFrom 1 frame_num 0 msk
    repeatInterleave4 (msk.take 1) ++ msk.drop 1

/-- Embedding of `msk.view(1, msk.shape[1] // 4, 4, lat_h, lat_w)
.transpose(1, 2)[0]` (lines 241-242) by index arithmetic: the result has
shape `(4, T, lat_h, lat_w)` with `T = length / 4`, and its `(c, j)`
entry is frame `4*j + c` of the input (`view` groups 4 consecutive
frames, `transpose` swaps the group axis with the sub-channel axis;
`view` additionally requires `4 ∣ length`, which holds whenever
`frame_num ≡ 1 (mod 4)` as the docstring of `generate` demands). -/
def mskFinal (frames : List (List (List ℚ))) : List (List (List (List ℚ))) :=
  (List.range 4).map (fun c =>
    (List.range (frames.length / 4)).map (fun j => frames.getD (4 * j + c) []))

/-- Lines 194-200: `frame_num` is incremented by one exactly when an
end-anchor image is supplied and `add_frames_for_end_image` is set. -/
def frameNumFinal (F : ℕ) (any_end_frame add_frames_for_end_image : Bool) : ℕ :=
  if any_end_frame && add_frames_for_end_image then F + 1 else F

/-- Line 194: `lat_frames = (frame_num - 1) // vae_stride[0] + 1`. -/
def latFrames (frame_num strideT : ℕ) : ℕ := (frame_num - 1) / strideT + 1

/-- Lines 194-201: the latent frame count actually used, recomputed as
`(frame_num - 2) // vae_stride[0] + 2` (with the incremented
`frame_num`) when an end frame is added. -/
def latFramesFinal (F : ℕ) (any_end_frame add_frames_for_end_image : Bool)
    (strideT : ℕ) : ℕ :=
  if any_end_frame && add_frames_for_end_image then
    (frameNumFinal F any_end_frame add_frames_for_end_image - 2) / strideT + 2
  else latFrames F strideT

/-- The complete mask pipeline of `generate` for an original requested
frame count `F`: the adjusted `frame_num` feeds the mask construction. -/
def generateMsk (F lat_h lat_w : ℕ)
    (any_end_frame add_frames_for_end_image : Bool) : List (List (List (List ℚ))) :=
  mskFinal (buildMsk (frameNumFinal F any_end_frame add_frames_for_end_image)
    lat_h lat_w any_end_frame add_frames_for_end_image)

/-- Temporal group `j` of the final mask: the frames at temporal index
`j` across the 4 sub-channels. -/
def temporalGroup (m : List (List (List (List ℚ)))) (j : ℕ) : List (List (List ℚ)) :=
  m.map (fun row => row.getD j [])

/-- The last temporal group of the final mask. -/
def lastTemporalGroup (m : List (List (List (List ℚ)))) : List (List (List ℚ)) :=
  temporalGroup m ((m.getD 0 []).length - 1)

/-- A group of frames is entirely 1. -/
def groupAllOnes (g : List (List (List ℚ))) : Prop :=
  ∀ f ∈ g, ∀ r ∈ f, ∀ x ∈ r, x = 1

/-! ## Selective-layer guidance window (image2video.py lines 359-361) -/

/-- Python's `int(·)` on a rational value: truncation toward zero. -/
def pyInt (q : ℚ) : ℤ := if 0 ≤ q then ⌊q⌋ else ⌈q⌉

/-- Lines 359-361: `slg_layers_local = None`, then
`if int(slg_start * sampling_steps) <= i < int(slg_end * sampling_steps):
slg_layers_local = slg_layers`.  The returned value is what the
unconditional forward evaluation receives as `slg_layers` (line 389). -/
def slgLayersLocal (slg_layers : Option (List ℕ)) (slg_start slg_end : ℚ)
    (sampling_steps i : ℕ) : Option (List ℕ) :=
  if pyInt (slg_start * sampling_steps) ≤ (i : ℤ) ∧
      (i : ℤ) < pyInt (slg_end * sampling_steps) then
    slg_layers
  else none

/-! ## Seed handling (image2video.py lines 225-228) -/

/-- Line 225: `seed = seed if seed >= 0 else random.randint(0, sys.maxsize)`.
`freshDraw` is the (nonnegative) value the fresh `random.randint` call
would produce. -/
def effectiveSeed (seed : ℤ) (freshDraw : ℕ) : ℤ :=
  if 0 ≤ seed then seed else freshDraw

/-- Modelled from the spec: `torch.Generator.manual_seed` followed by
`torch.randn(16, lat_frames, lat_h, lat_w, generator=seed_g)` (lines
226-228).  The generator implementation is not part of this repository;
per the spec the draw is a pure function of the seed and the shape, which
is all the determinism claim needs.  The concrete values below are an
arbitrary deterministic pseudo-random fill standing in for the Gaussian
samples. -/
def torchRandn (seed : ℤ) (shape : List ℕ) : List ℚ :=
  (List.range shape.prod).map (fun k =>
    ((6364136223846793005 * (seed.natAbs + k) + 1442695040888963407) % 2 ^ 64 : ℕ))

/-- Lines 225-228: the initial noise latent, of shape
`(16, lat_frames, lat_h, lat_w)`, drawn from a generator seeded with the
effective seed. -/
def initialNoise (seed : ℤ) (freshDraw : ℕ) (lat_frames lat_h lat_w : ℕ) : List ℚ :=
  torchRandn (effectiveSeed seed freshDraw) [16, lat_frames, lat_h, lat_w]

/-! ## Control flow of `generate` as an event trace
(image2video.py lines 193-457) -/

/-- Observable events of one `generate` call, in source order. -/
inductive Ev : Type
  | allocImg : Ev          -- lines 215-221: resized/normalized image tensors
  | allocNoise : Ev        -- line 228: `noise = torch.randn(...)`
  | allocMsk : Ev          -- lines 230-242: conditioning mask
  | encodeText : Ev        -- lines 248-261
  | encodeClip : Ev        -- line 263
  | vaeEncode : Ev         -- lines 269-283
  | raiseUnsupported : Ev  -- line 312: `raise NotImplementedError`
  | solverInit : Ev        -- lines 293-310: scheduler construction
  | forwardCond (i : ℕ) : Ev    -- lines 368 / 373-379
  | forwardUncond (i : ℕ) : Ev  -- lines 368 / 384-391
  | solverStep (i : ℕ) : Ev     -- line 418: `sample_scheduler.step(...)`
  | decode : Ev            -- line 440: `self.vae.decode(...)`
  deriving DecidableEq, Repr

/-- Tensor-allocation events (performed during preprocessing, before the
solver-name check at lines 293-312). -/
def isAllocEv : Ev → Bool
  | Ev.allocImg => true
  | Ev.allocNoise => true
  | Ev.allocMsk => true
  | _ => false

/-- Line 293-312: only `'unipc'` and `'dpm++'` are accepted. -/
def solverSupported (sample_solver : String) : Bool :=
  sample_solver = "unipc" || sample_solver = "dpm++"

/-- Result of a `generate` call. -/
inductive GenResult : Type
  | raised : GenResult    -- `raise NotImplementedError("Unsupported solver.")`
  | noResult : GenResult  -- `return None` (interrupt, or rank ≠ 0)
  | video : GenResult     -- decoded video tensor returned (rank 0)
  deriving DecidableEq, Repr

/-- The sampling loop (lines 357-429), producing the trace of events and
`none` if the `self._interrupt` flag aborted it.  `int1 i` / `int2 i` are
the values of `self._interrupt` observed at the polls following the
conditional (line 380) and unconditional (line 392) forward evaluations
of step `i`; in `joint_pass` mode there is a single fused forward and a
single poll (lines 368-371) observing `int1 i`.  On a poll reading
`true` the function returns `None` immediately — in particular before
the `sample_scheduler.step` call of the current step. -/
def sampleLoop (joint_pass : Bool) (int1 int2 : ℕ → Bool) :
    ℕ → ℕ → List Ev × Option Unit
  | _, 0 => ([], some ())
  | i, n + 1 =>
      if joint_pass then
        if int1 i then ([Ev.forwardCond i, Ev.forwardUncond i], none)
        else
          let rest := sampleLoop joint_pass int1 int2 (i + 1) n
          (Ev.forwardCond i :: Ev.forwardUncond i :: Ev.solverStep i :: rest.1, rest.2)
      else
        if int1 i then ([Ev.forwardCond i], none)
        else if int2 i then ([Ev.forwardCond i, Ev.forwardUncond i], none)
        else
          let rest := sampleLoop joint_pass int1 int2 (i + 1) n
          (Ev.forwardCond i :: Ev.forwardUncond i :: Ev.solverStep i :: rest.1, rest.2)

/-- The preprocessing events of `generate` (lines 193-283), in source
order: image tensor preparation, initial-noise draw, mask construction,
text encoding, CLIP encoding, VAE encoding. -/
def preEvents : List Ev :=
  [Ev.allocImg, Ev.allocNoise, Ev.allocMsk, Ev.encodeText, Ev.encodeClip, Ev.vaeEncode]

/-- Control-flow skeleton of `generate` (lines 193-457) as an event trace
plus result:
* preprocessing always runs first;
* the solver-name check (lines 293-312) raises `NotImplementedError` for
  any name other than `'unipc'`/`'dpm++'`;
* the sampling loop runs `sampling_steps` steps, returning `None` on an
  observed interrupt;
* after a completed loop, only rank 0 decodes (lines 438-447); other
  ranks leave `video = None`. -/
def generateRun (sample_solver : String) (sampling_steps : ℕ) (joint_pass : Bool)
    (int1 int2 : ℕ → Bool) (rank : ℕ) : List Ev × GenResult :=
  if solverSupported sample_solver then
    let lr := sampleLoop joint_pass int1 int2 0 sampling_steps
    match lr.2 with
    | none => (preEvents ++ Ev.solverInit :: lr.1, GenResult.noResult)
    | some _ =>
        if rank = 0 then
          (preEvents ++ Ev.solverInit :: lr.1 ++ [Ev.decode], GenResult.video)
        else (preEvents ++ Ev.solverInit :: lr.1, GenResult.noResult)
  else (preEvents ++ [Ev.raiseUnsupported], GenResult.raised)

/-- The interrupt value the loop observes at step `i` (first poll, and in
non-fused mode also the second poll). -/
def polledAt (joint_pass : Bool) (int1 int2 : ℕ → Bool) (i : ℕ) : Bool :=
  if joint_pass then int1 i else int1 i || int2 i

/-- "No tensor allocation happens before the unsupported-solver error":
every event strictly preceding `raiseUnsupported` in the trace is a
non-allocation event.  This is the ordering property claim C2 asserts. -/
def noAllocBeforeRaise (evs : List Ev) : Prop :=
  ∀ e ∈ evs.takeWhile (fun e => e ≠ Ev.raiseUnsupported), isAllocEv e = false

/-! ## Final-frame trimming after decode (image2video.py lines 438-444) -/

/-- Lines 442-444: `video = video[:, :-1]` exactly when an end anchor is
present and `add_frames_for_end_image` is set; the decoded video is a
list of pixel frames along the temporal axis. -/
def trimVideo (video : List (List ℚ)) (any_end_frame add_frames_for_end_image : Bool) :
    List (List ℚ) :=
  if any_end_frame && add_frames_for_end_image then video.dropLast else video

end WanI2V

namespace WanI2V

/-! ## Lemmas about the guidance arithmetic -/

theorem sqNormRow_nonneg (n : List ℚ) : 0 ≤ sqNormRow n := by
  unfold sqNormRow
  induction n with
  | nil => simp
  | cons x xs ih =>
      simp only [List.map_cons, List.sum_cons]
      have hx : (0:ℚ) ≤ x ^ 2 := sq_nonneg x
      linarith

theorem dotRow_zeroLike (p : List ℚ) :
    dotRow p (p.map (fun _ => 0)) = 0 := by
  unfold dotRow
  induction p with
  | nil => simp
  | cons x xs ih => simpa using ih

theorem sqNormRow_zeroLike (p : List ℚ) :
    sqNormRow (p.map (fun _ => (0:ℚ))) = 0 := by
  unfold sqNormRow
  induction p with
  | nil => simp
  | cons x xs ih => simp [ih]

theorem optimized_scale_zeroLike (P : List (List ℚ)) :
    optimized_scale P (zeroLike P) = P.map (fun _ => 0) := by
  unfold optimized_scale zeroLike
  induction P with
  | nil => simp
  | cons r rs ih =>
      simp only [List.map_cons, List.zipWith_cons_cons, ih, List.cons.injEq, and_true]
      rw [dotRow_zeroLike, sqNormRow_zeroLike]
      simp

theorem tSub_zeroLike (P : List (List ℚ)) : tSub P (zeroLike P) = P := by
  unfold tSub zeroLike
  induction P with
  | nil => simp
  | cons r rs ih =>
      simp only [List.map_cons, List.zipWith_cons_cons, ih, List.cons.injEq, and_true]
      induction r with
      | nil => simp
      | cons x xs ihr => simpa using ihr

theorem rowScale_zeroLike (alphas : List ℚ) (P : List (List ℚ))
    (h : alphas.length = P.length) :
    rowScale alphas (zeroLike P) = zeroLike P := by
  unfold rowScale zeroLike
  induction P generalizing alphas with
  | nil => simp
  | cons r rs ih =>
      cases alphas with
      | nil => simp at h
      | cons a as =>
          simp only [List.map_cons, List.zipWith_cons_cons, List.cons.injEq]
          refine ⟨by simp, ?_⟩
          exact ih as (by simpa using h)

theorem tAdd_zeroLike_tSMul (g : ℚ) (P : List (List ℚ)) :
    tAdd (zeroLike P) (tSMul g P) = tSMul g P := by
  unfold tAdd zeroLike tSMul
  induction P with
  | nil => simp
  | cons r rs ih =>
      simp only [List.map_cons, List.zipWith_cons_cons, ih, List.cons.injEq, and_true]
      induction r with
      | nil => simp
      | cons x xs ihr =>
          simp only [List.map_cons, List.zipWith_cons_cons, ihr, List.cons.injEq, and_true]
          ring

theorem optimized_scale_length (P N : List (List ℚ)) :
    (optimized_scale P N).length = min P.length N.length := by
  unfold optimized_scale
  simp

/-- The early-branch value of the `if cfg_star_switch` block leaves
`noise_pred_uncond` untouched, so line 411 combines the raw tensors. -/
theorem cfgStep_early_eq (i czs : ℕ) (g : ℚ) (P N : List (List ℚ))
    (h : i ≤ czs) :
    cfgStep true i czs g P N = tAdd N (tSMul g (tSub P N)) := by
  unfold cfgStep
  simp [h]

/-- **C1, counterexample.**  The claim states that with `cfg_star_switch`
enabled and `i ≤ cfg_zero_step` the guided prediction equals exactly
`guide_scale * P`.  At `i = 0`, `cfg_zero_step = 5`, `guide_scale = 2`,
`P = [[1]]`, `N = [[1]]` the code produces `[[1]]`
(`N + guide_scale * (P - N)`), not `guide_scale * P = [[2]]`:
the assignment `noise_pred = noise_pred_text*0.` (line 408) is
unconditionally overwritten by line 411. -/
theorem claim_C1_counterexample :
    cfgStep true 0 5 2 [[1]] [[1]] ≠ tSMul 2 [[1]] := by
  rw [cfgStep_early_eq 0 5 2 [[1]] [[1]] (by decide)]
  simp [tAdd, tSMul, tSub]

/-- **C1, amended.**  When the adaptive rescaling variant
(`cfg_star_switch`) is enabled and `i ≤ cfg_zero_step`, the guided
prediction is `N + guide_scale * (P - N)` with the unconditional
prediction `N` unmodified (in particular not rescaled by `alpha`): the
early zeroing assignment is dead and the unconditional contribution is
not eliminated. -/
theorem claim_C1_amended (i czs : ℕ) (g : ℚ) (P N : List (List ℚ))
    (h : i ≤ czs) :
    cfgStep true i czs g P N = tAdd N (tSMul g (tSub P N)) :=
  cfgStep_early_eq i czs g P N h

theorem claim_C1_amended_witness :
    (0 ≤ 5) ∧
      cfgStep true 0 5 2 [[1]] [[1]] =
        tAdd [[1]] (tSMul 2 (tSub [[1]] [[1]])) :=
  ⟨by decide, claim_C1_amended 0 5 2 [[1]] [[1]] (by decide)⟩

/-- **C5.**  The rescaling factor `alpha` divides by `||N||² + 1e-8`,
which is strictly positive for every row `n` (no division by zero); when
the unconditional prediction is zero everywhere, every per-row `alpha`
is `0`, and past the early-step threshold the guided prediction reduces
to `guide_scale * P`. -/
theorem claim_C5_epsilon_guard (P : List (List ℚ)) (n : List ℚ) (g : ℚ)
    (i czs : ℕ) :
    0 < sqNormRow n + 1 / 100000000 ∧
      optimized_scale P (zeroLike P) = P.map (fun _ => 0) ∧
      (czs < i → cfgStep true i czs g P (zeroLike P) = tSMul g P) := by
  refine ⟨?_, optimized_scale_zeroLike P, ?_⟩
  · have := sqNormRow_nonneg n
    linarith
  · intro hi
    unfold cfgStep
    have hnot : ¬ i ≤ czs := not_le.mpr hi
    simp only [if_true, hnot, if_false, ite_true, reduceIte]
    rw [rowScale_zeroLike _ _ (by simp [optimized_scale_length, zeroLike]),
      tSub_zeroLike, tAdd_zeroLike_tSMul]

/-! ## Lemmas about the conditioning mask -/

theorem assignZeroFrom_length (lo hi : ℕ) :
    ∀ (fs : List (List (List ℚ))) (i : ℕ), (assignZeroFrom lo hi i fs).length = fs.length := by
  intro fs
  induction fs with
  | nil => intro i; rfl
  | cons f fs ih => intro i; simp [assignZeroFrom, ih]

theorem assignZeroFrom_append (lo hi : ℕ) :
    ∀ (xs ys : List (List (List ℚ))) (i : ℕ),
      assignZeroFrom lo hi i (xs ++ ys) =
        assignZeroFrom lo hi i xs ++ assignZeroFrom lo hi (i + xs.length) ys := by
  intro xs
  induction xs with
  | nil => intro ys i; simp [assignZeroFrom]
  | cons x xs ih =>
      intro ys i
      simp only [List.cons_append, assignZeroFrom, List.length_cons]
      have happ : xs.append ys = xs ++ ys := rfl
      rw [happ, ih]
      have harg : i + (xs.length + 1) = i + 1 + xs.length := by omega
      rw [harg]

theorem assignZeroFrom_all_in (lo hi : ℕ) (f : List (List ℚ)) :
    ∀ (n i : ℕ), (∀ k, k < n → lo ≤ i + k ∧ i + k < hi) →
      assignZeroFrom lo hi i (List.replicate n f) =
        List.replicate n (zeroOutFrame f) := by
  intro n
  induction n with
  | zero => intro i _; rfl
  | succ m ih =>
      intro i h
      rw [List.replicate_succ, List.replicate_succ]
      simp only [assignZeroFrom]
      have h0 := h 0 (Nat.succ_pos m)
      rw [if_pos (by simpa using h0), ih (i + 1) (fun k hk => by
        have := h (k + 1) (by omega)
        constructor <;> omega)]

theorem assignZeroFrom_all_out (lo hi : ℕ) (f : List (List ℚ)) (i : ℕ)
    (h : ¬ (lo ≤ i ∧ i < hi)) :
    assignZeroFrom lo hi i [f] = [f] := by
  simp [assignZeroFrom, h]

theorem repeatInterleave4_singleton (f : List (List ℚ)) :
    repeatInterleave4 [f] = List.replicate 4 f := by
  simp [repeatInterleave4]

/-- Closed form of the zeroed mask:
`msk[:, 1:-1] = 0` applied to `frame_num = m + 2` all-ones frames. -/
theorem assignZero_middle (m : ℕ) (f : List (List ℚ)) :
    assignZeroFrom 1 (m + 1) 0 (List.replicate (m + 2) f) =
      f :: (List.replicate m (zeroOutFrame f) ++ [f]) := by
  have hsplit : List.replicate (m + 2) f =
      f :: (List.replicate m f ++ [f]) := by
    rw [List.replicate_succ, List.replicate_succ']
  rw [hsplit]
  simp only [assignZeroFrom]
  rw [if_neg (by omega)]
  congr 1
  rw [assignZeroFrom_append, assignZeroFrom_all_in 1 (m + 1) f m 1
    (fun k hk => by omega)]
  rw [List.length_replicate]
  rw [assignZeroFrom_all_out 1 (m + 1) f (1 + m) (by omega)]

/-- Closed form of `msk[:, 1:] = 0` applied to `m + 1` all-ones frames. -/
theorem assignZero_tail (m : ℕ) (f : List (List ℚ)) :
    assignZeroFrom 1 (m + 1) 0 (List.replicate (m + 1) f) =
      f :: List.replicate m (zeroOutFrame f) := by
  rw [List.replicate_succ]
  simp only [assignZeroFrom]
  rw [if_neg (by omega)]
  rw [assignZeroFrom_all_in 1 (m + 1) f m 1 (fun k hk => by omega)]

/-- Closed form of the concatenated mask frames when an end anchor is
present and `add_frames_for_end_image` is set: the (already incremented)
`frame_num = F + 1` yields `4` ones, `F - 1` zeros, `4` ones. -/
theorem buildMsk_end_add (F lat_h lat_w : ℕ) (hF : 1 ≤ F) :
    buildMsk (F + 1) lat_h lat_w true true =
      List.replicate 4 (oneFrame lat_h lat_w) ++
        List.replicate (F - 1) (zeroOutFrame (oneFrame lat_h lat_w)) ++
        List.replicate 4 (oneFrame lat_h lat_w) := by
  obtain ⟨m, rfl⟩ : ∃ m, F = m + 1 := ⟨F - 1, by omega⟩
  unfold buildMsk
  simp only [if_true, Nat.add_sub_cancel]
  rw [assignZero_middle m (oneFrame lat_h lat_w)]
  have hlen : (oneFrame lat_h lat_w ::
      (List.replicate m (zeroOutFrame (oneFrame lat_h lat_w)) ++
        [oneFrame lat_h lat_w])).length - 1 = m + 1 := by
    simp
  rw [hlen]
  have htake : (oneFrame lat_h lat_w ::
      (List.replicate m (zeroOutFrame (oneFrame lat_h lat_w)) ++
        [oneFrame lat_h lat_w])).take 1 = [oneFrame lat_h lat_w] := by
    simp
  have hdrop1 : (oneFrame lat_h lat_w ::
      (List.replicate m (zeroOutFrame (oneFrame lat_h lat_w)) ++
        [oneFrame lat_h lat_w])).drop 1 =
      List.replicate m (zeroOutFrame (oneFrame lat_h lat_w)) ++
        [oneFrame lat_h lat_w] := by
    simp
  have hdroplast : (List.replicate m (zeroOutFrame (oneFrame lat_h lat_w)) ++
      [oneFrame lat_h lat_w]).dropLast =
      List.replicate m (zeroOutFrame (oneFrame lat_h lat_w)) := by
    rw [List.dropLast_concat]
  have hdroplastIdx : (oneFrame lat_h lat_w ::
      (List.replicate m (zeroOutFrame (oneFrame lat_h lat_w)) ++
        [oneFrame lat_h lat_w])).drop (m + 1) = [oneFrame lat_h lat_w] := by
    rw [List.drop_succ_cons]
    simp
  rw [htake, hdrop1, hdroplast, hdroplastIdx, repeatInterleave4_singleton]

theorem claim_C5_epsilon_guard_witness :
    (0 < sqNormRow [3, 4] + 1 / 100000000 ∧
        optimized_scale [[1, 2]] (zeroLike [[1, 2]]) =
          [[1, 2]].map (fun _ => 0) ∧
        (5 < 6 → cfgStep true 6 5 7 [[1, 2]] (zeroLike [[1, 2]]) =
          tSMul 7 [[1, 2]])) ∧
      cfgStep true 6 5 7 [[1, 2]] (zeroLike [[1, 2]]) = tSMul 7 [[1, 2]] :=
  ⟨claim_C5_epsilon_guard [[1, 2]] [3, 4] 7 6 5,
    (claim_C5_epsilon_guard [[1, 2]] [3, 4] 7 6 5).2.2 (by decide)⟩

/-- Closed form of the concatenated mask frames when an end anchor is
present but `add_frames_for_end_image` is not set (`frame_num = F ≥ 2`
unchanged): `4` ones, `F - 2` zeros, a single trailing one. -/
theorem buildMsk_end_noadd (F lat_h lat_w : ℕ) (hF : 2 ≤ F) :
    buildMsk F lat_h lat_w true false =
      List.replicate 4 (oneFrame lat_h lat_w) ++
        (List.replicate (F - 2) (zeroOutFrame (oneFrame lat_h lat_w)) ++
          [oneFrame lat_h lat_w]) := by
  obtain ⟨m, rfl⟩ : ∃ m, F = m + 2 := ⟨F - 2, by omega⟩
  unfold buildMsk
  simp only [if_true, Bool.false_eq_true, if_false, Nat.add_sub_cancel]
  have h21 : m + 2 - 1 = m + 1 := by omega
  rw [h21, assignZero_middle m (oneFrame lat_h lat_w)]
  have htake : (oneFrame lat_h lat_w ::
      (List.replicate m (zeroOutFrame (oneFrame lat_h lat_w)) ++
        [oneFrame lat_h lat_w])).take 1 = [oneFrame lat_h lat_w] := by
    simp
  rw [htake, List.drop_succ_cons, List.drop_zero, repeatInterleave4_singleton]

/-- Closed form of the concatenated mask frames without an end anchor
(`frame_num = F ≥ 1`): `4` ones then `F - 1` zeros.  The
`add_frames_for_end_image` flag is irrelevant on this path. -/
theorem buildMsk_noend (F lat_h lat_w : ℕ) (b : Bool) (hF : 1 ≤ F) :
    buildMsk F lat_h lat_w false b =
      List.replicate 4 (oneFrame lat_h lat_w) ++
        List.replicate (F - 1) (zeroOutFrame (oneFrame lat_h lat_w)) := by
  obtain ⟨m, rfl⟩ : ∃ m, F = m + 1 := ⟨F - 1, by omega⟩
  unfold buildMsk
  simp only [Bool.false_eq_true, if_false, Nat.add_sub_cancel]
  rw [assignZero_tail m (oneFrame lat_h lat_w)]
  have htake : (oneFrame lat_h lat_w ::
      List.replicate m (zeroOutFrame (oneFrame lat_h lat_w))).take 1 =
      [oneFrame lat_h lat_w] := by
    simp
  rw [htake, List.drop_succ_cons, List.drop_zero, repeatInterleave4_singleton]

/-- Degenerate single-frame case with an end anchor but no added frame:
`msk[:, 1:-1] = 0` touches nothing and the tail slice is empty. -/
theorem buildMsk_end_noadd_one (lat_h lat_w : ℕ) :
    buildMsk 1 lat_h lat_w true false =
      List.replicate 4 (oneFrame lat_h lat_w) := by
  unfold buildMsk
  simp [assignZeroFrom, repeatInterleave4]

/-! ## Lemmas about the final `view`/`transpose` mask -/

theorem mskFinal_length (frames : List (List (List ℚ))) :
    (mskFinal frames).length = 4 := by
  unfold mskFinal
  simp

theorem mskFinal_row (frames : List (List (List ℚ))) (c : ℕ) (hc : c < 4) :
    (mskFinal frames).getD c [] =
      (List.range (frames.length / 4)).map (fun j => frames.getD (4 * j + c) []) := by
  unfold mskFinal
  rw [List.getD_eq_getElem?_getD, List.getElem?_map, List.getElem?_range hc]
  simp

theorem mskFinal_row_length (frames : List (List (List ℚ))) (c : ℕ) (hc : c < 4) :
    ((mskFinal frames).getD c []).length = frames.length / 4 := by
  rw [mskFinal_row frames c hc]
  simp

theorem mskFinal_entry (frames : List (List (List ℚ))) (c j : ℕ)
    (hc : c < 4) (hj : j < frames.length / 4) :
    ((mskFinal frames).getD c []).getD j [] = frames.getD (4 * j + c) [] := by
  rw [mskFinal_row frames c hc]
  rw [List.getD_eq_getElem?_getD, List.getElem?_map, List.getElem?_range hj]
  simp

theorem temporalGroup_mskFinal (frames : List (List (List ℚ))) (j : ℕ)
    (hj : j < frames.length / 4) :
    temporalGroup (mskFinal frames) j =
      (List.range 4).map (fun c => frames.getD (4 * j + c) []) := by
  unfold temporalGroup mskFinal
  rw [List.map_map]
  apply List.map_congr_left
  intro c hc
  have hc4 : c < 4 := List.mem_range.mp hc
  simp only [Function.comp]
  rw [List.getD_eq_getElem?_getD, List.getElem?_map, List.getElem?_range hj]
  simp

theorem zeroOutFrame_oneFrame (lat_h lat_w : ℕ) :
    zeroOutFrame (oneFrame lat_h lat_w) =
      List.replicate lat_h (List.replicate lat_w 0) := by
  simp [zeroOutFrame, oneFrame, List.map_replicate]

theorem oneFrame_all_ones (lat_h lat_w : ℕ) :
    ∀ r ∈ oneFrame lat_h lat_w, ∀ x ∈ r, x = 1 := by
  intro r hr x hx
  rw [List.eq_of_mem_replicate hr] at hx
  exact List.eq_of_mem_replicate hx

theorem frameShape (lat_h lat_w : ℕ) (f : List (List ℚ))
    (h : f = oneFrame lat_h lat_w ∨ f = zeroOutFrame (oneFrame lat_h lat_w)) :
    f.length = lat_h ∧ ∀ r ∈ f, r.length = lat_w := by
  rcases h with rfl | rfl
  · refine ⟨by simp [oneFrame], ?_⟩
    intro r hr
    rw [List.eq_of_mem_replicate hr]
    simp
  · rw [zeroOutFrame_oneFrame]
    refine ⟨by simp, ?_⟩
    intro r hr
    rw [List.eq_of_mem_replicate hr]
    simp

/-- The concatenated mask frames: their count, the fact that every frame
is an all-ones or all-zeros `(lat_h, lat_w)` frame, and that the first
four frames are all-ones — for every combination of the end-anchor
flags, given the documented contract `frame_num ≡ 1 (mod 4)`. -/
theorem buildMsk_spec (F lat_h lat_w : ℕ) (anyEnd add : Bool) (hF : F % 4 = 1) :
    (buildMsk (frameNumFinal F anyEnd add) lat_h lat_w anyEnd add).length =
        4 * latFramesFinal F anyEnd add 4 ∧
      (∀ f ∈ buildMsk (frameNumFinal F anyEnd add) lat_h lat_w anyEnd add,
        f = oneFrame lat_h lat_w ∨ f = zeroOutFrame (oneFrame lat_h lat_w)) ∧
      (∀ c, c < 4 →
        (buildMsk (frameNumFinal F anyEnd add) lat_h lat_w anyEnd add).getD c [] =
          oneFrame lat_h lat_w) := by
  have hF1 : 1 ≤ F := by omega
  rcases anyEnd with _ | _
  · -- no end anchor: frames = 4 ones ++ (F-1) zeros
    have hfn : frameNumFinal F false add = F := rfl
    have hlf : latFramesFinal F false add 4 = (F - 1) / 4 + 1 := rfl
    rw [hfn, hlf, buildMsk_noend F lat_h lat_w add hF1]
    refine ⟨?_, ?_, ?_⟩
    · simp
      omega
    · intro f hf
      rcases List.mem_append.mp hf with h | h
      · exact Or.inl (List.eq_of_mem_replicate h)
      · exact Or.inr (List.eq_of_mem_replicate h)
    · intro c hc
      rw [List.getD_append _ _ _ _ (by simp; omega),
        List.getD_eq_getElem _ _ (by simp; omega)]
      exact List.getElem_replicate _ _
  · rcases add with _ | _
    · -- end anchor, no added frame
      have hfn : frameNumFinal F true false = F := rfl
      have hlf : latFramesFinal F true false 4 = (F - 1) / 4 + 1 := rfl
      rw [hfn, hlf]
      rcases Nat.eq_or_lt_of_le hF1 with h1 | h2
      · -- F = 1: the zeroed middle slice and the tail slice are empty
        rw [← h1, buildMsk_end_noadd_one lat_h lat_w]
        refine ⟨by simp, ?_, ?_⟩
        · intro f hf
          exact Or.inl (List.eq_of_mem_replicate hf)
        · intro c hc
          rw [List.getD_eq_getElem _ _ (by simp; omega)]
          exact List.getElem_replicate _ _
      · -- F ≥ 2
        rw [buildMsk_end_noadd F lat_h lat_w (by omega)]
        refine ⟨?_, ?_, ?_⟩
        · simp
          omega
        · intro f hf
          rcases List.mem_append.mp hf with h | h
          · exact Or.inl (List.eq_of_mem_replicate h)
          · rcases List.mem_append.mp h with h' | h'
            · exact Or.inr (List.eq_of_mem_replicate h')
            · exact Or.inl (by simpa using h')
        · intro c hc
          rw [List.getD_append _ _ _ _ (by simp; omega),
            List.getD_eq_getElem _ _ (by simp; omega)]
          exact List.getElem_replicate _ _
    · -- end anchor with added frame: frame_num = F + 1
      have hfn : frameNumFinal F true true = F + 1 := rfl
      have hlf : latFramesFinal F true true 4 = (F + 1 - 2) / 4 + 2 := rfl
      rw [hfn, hlf, buildMsk_end_add F lat_h lat_w hF1]
      refine ⟨?_, ?_, ?_⟩
      · simp
        omega
      · intro f hf
        rcases List.mem_append.mp hf with h | h
        · rcases List.mem_append.mp h with h' | h'
          · exact Or.inl (List.eq_of_mem_replicate h')
          · exact Or.inr (List.eq_of_mem_replicate h')
        · exact Or.inl (List.eq_of_mem_replicate h)
      · intro c hc
        rw [List.getD_append _ _ _ _ (by simp; omega),
          List.getD_append _ _ _ _ (by simp; omega),
          List.getD_eq_getElem _ _ (by simp; omega)]
        exact List.getElem_replicate _ _


/-- **C4, counterexample.**  The claim asserts the total mask shape is
`(4, F/4, lat_h, lat_w)` for any `F`.  At `F = 81` with an end anchor and
`add_frames_for_end_image` (both default-on in the source), the temporal
extent of the built mask is `22`, while `F/4` is `20` under floor
division and `21` under ceiling division — so no reading of `F/4`
matches. -/
theorem claim_C4_counterexample :
    ((generateMsk 81 1 1 true true).getD 0 []).length = 22 ∧
      (81 : ℕ) / 4 = 20 ∧ ((81 : ℕ) + 3) / 4 = 21 := by
  refine ⟨?_, by norm_num, by norm_num⟩
  have hspec := buildMsk_spec 81 1 1 true true (by norm_num)
  have hg : generateMsk 81 1 1 true true =
      mskFinal (buildMsk (frameNumFinal 81 true true) 1 1 true true) := rfl
  rw [hg, mskFinal_row_length _ 0 (by norm_num), hspec.1]
  have hlf : latFramesFinal 81 true true 4 = (81 + 1 - 2) / 4 + 2 := rfl
  rw [hlf]

/-- **C4, amended.**  For any frame count `F` with `F % 4 = 1` (the
documented contract) and any latent spatial size, the built conditioning
mask has shape `(4, lat_frames, lat_h, lat_w)` — where `lat_frames` is
the latent frame count of lines 194-201, namely `(F-1)/4 + 1`, or
`(F-1)/4 + 2` when a frame is added for the end image — and its first
temporal group is entirely 1. -/
theorem claim_C4_amended (F lat_h lat_w : ℕ) (anyEnd add : Bool)
    (hF : F % 4 = 1) :
    (generateMsk F lat_h lat_w anyEnd add).length = 4 ∧
      (∀ c, c < 4 → ((generateMsk F lat_h lat_w anyEnd add).getD c []).length =
        latFramesFinal F anyEnd add 4) ∧
      groupAllOnes (temporalGroup (generateMsk F lat_h lat_w anyEnd add) 0) ∧
      (∀ c, c < 4 → ∀ j, j < latFramesFinal F anyEnd add 4 →
        (((generateMsk F lat_h lat_w anyEnd add).getD c []).getD j []).length = lat_h ∧
        ∀ r ∈ ((generateMsk F lat_h lat_w anyEnd add).getD c []).getD j [],
          r.length = lat_w) := by
  obtain ⟨hlen, hmem, hfirst⟩ := buildMsk_spec F lat_h lat_w anyEnd add hF
  have hg : generateMsk F lat_h lat_w anyEnd add =
      mskFinal (buildMsk (frameNumFinal F anyEnd add) lat_h lat_w anyEnd add) := rfl
  have hL1 : 1 ≤ latFramesFinal F anyEnd add 4 := by
    unfold latFramesFinal latFrames
    split <;> omega
  have hdiv : (buildMsk (frameNumFinal F anyEnd add) lat_h lat_w anyEnd add).length / 4 =
      latFramesFinal F anyEnd add 4 := by
    rw [hlen]
    omega
  refine ⟨by rw [hg]; exact mskFinal_length _, ?_, ?_, ?_⟩
  · intro c hc
    rw [hg, mskFinal_row_length _ c hc, hdiv]
  · rw [hg, temporalGroup_mskFinal _ 0 (by omega)]
    intro f hf
    obtain ⟨c, hc, rfl⟩ := List.mem_map.mp hf
    have hc4 : c < 4 := List.mem_range.mp hc
    have hzc : 4 * 0 + c = c := by omega
    rw [hzc, hfirst c hc4]
    exact oneFrame_all_ones lat_h lat_w
  · intro c hc j hj
    rw [hg, mskFinal_entry _ c j hc (by omega)]
    have hidx : 4 * j + c <
        (buildMsk (frameNumFinal F anyEnd add) lat_h lat_w anyEnd add).length := by
      rw [hlen]
      omega
    rw [List.getD_eq_getElem _ _ hidx]
    exact frameShape lat_h lat_w _ (hmem _ (List.getElem_mem hidx))

theorem claim_C4_amended_witness :
    ((generateMsk 5 1 1 false false).getD 0 []).length =
      latFramesFinal 5 false false 4 :=
  (claim_C4_amended 5 1 1 false false (by decide)).2.1 0 (by decide)

/-- **C3, counterexample.**  The claim asserts the last temporal group is
entirely 1 whenever an end anchor is supplied, regardless of
`add_frames_for_end_image`.  With `F = 5`, an end anchor, and
`add_frames_for_end_image = False`, the trailing frames are not
replicated: the final temporal group consists of three zero frames and a
single one frame. -/
theorem claim_C3_counterexample :
    ¬ groupAllOnes (lastTemporalGroup (generateMsk 5 1 1 true false)) := by
  unfold groupAllOnes
  decide

/-- **C3, amended.**  When an end-anchor image is supplied *and*
`add_frames_for_end_image` is set, the last temporal group of the built
conditioning mask is entirely 1 (for any `F ≡ 1 (mod 4)` and any latent
spatial size).  Without the added end frame the last group mixes zero
frames with the single end-frame row. -/
theorem claim_C3_amended (F lat_h lat_w : ℕ) (hF : F % 4 = 1) :
    groupAllOnes (lastTemporalGroup (generateMsk F lat_h lat_w true true)) := by
  obtain ⟨hlen, hmem, hfirst⟩ := buildMsk_spec F lat_h lat_w true true hF
  have hg : generateMsk F lat_h lat_w true true =
      mskFinal (buildMsk (frameNumFinal F true true) lat_h lat_w true true) := rfl
  have hlf : latFramesFinal F true true 4 = (F + 1 - 2) / 4 + 2 := rfl
  have hb : buildMsk (frameNumFinal F true true) lat_h lat_w true true =
      List.replicate 4 (oneFrame lat_h lat_w) ++
        List.replicate (F - 1) (zeroOutFrame (oneFrame lat_h lat_w)) ++
        List.replicate 4 (oneFrame lat_h lat_w) :=
    buildMsk_end_add F lat_h lat_w (by omega)
  have hflen : (buildMsk (frameNumFinal F true true) lat_h lat_w true true).length =
      F + 7 := by
    rw [hlen, hlf]
    omega
  unfold lastTemporalGroup
  rw [hg, mskFinal_row_length _ 0 (by omega)]
  rw [temporalGroup_mskFinal _ _ (by rw [hflen]; omega)]
  intro f hf
  obtain ⟨c, hc, rfl⟩ := List.mem_map.mp hf
  have hc4 : c < 4 := List.mem_range.mp hc
  have hidx : 4 * ((buildMsk (frameNumFinal F true true) lat_h lat_w true true).length
      / 4 - 1) + c = (4 + (F - 1)) + c := by
    rw [hflen]
    omega
  rw [hidx, hb, List.getD_append_right _ _ _ _ (by simp; omega)]
  have hsub : 4 + (F - 1) + c -
      (List.replicate 4 (oneFrame lat_h lat_w) ++
        List.replicate (F - 1) (zeroOutFrame (oneFrame lat_h lat_w))).length = c := by
    simp
    omega
  rw [hsub, List.getD_eq_getElem _ _ (by simp; omega), List.getElem_replicate]
  exact oneFrame_all_ones lat_h lat_w

theorem claim_C3_amended_witness :
    groupAllOnes (lastTemporalGroup (generateMsk 5 1 1 true true)) :=
  claim_C3_amended 5 1 1 (by decide)

/-! ## Event-trace lemmas for the sampling loop and `generate` skeleton -/

theorem sampleLoop_no_decode (joint : Bool) (int1 int2 : ℕ → Bool) :
    ∀ (n i : ℕ), Ev.decode ∉ (sampleLoop joint int1 int2 i n).1 := by
  intro n
  induction n with
  | zero => intro i; simp [sampleLoop]
  | succ m ih =>
      intro i
      rcases joint with _ | _
      · rcases h1 : int1 i with _ | _
        · rcases h2 : int2 i with _ | _
          · simp [sampleLoop, h1, h2, ih]
          · simp [sampleLoop, h1, h2]
        · simp [sampleLoop, h1]
      · rcases h1 : int1 i with _ | _
        · simp [sampleLoop, h1, ih]
        · simp [sampleLoop, h1]

theorem sampleLoop_interrupt (joint : Bool) (int1 int2 : ℕ → Bool) :
    ∀ (n i k : ℕ), i ≤ k → k < i + n →
      (∀ j, i ≤ j → j < k → polledAt joint int1 int2 j = false) →
      polledAt joint int1 int2 k = true →
      (sampleLoop joint int1 int2 i n).2 = none ∧
        ∀ m, Ev.solverStep m ∈ (sampleLoop joint int1 int2 i n).1 → i ≤ m ∧ m < k := by
  intro n
  induction n with
  | zero => intro i k hik hk _ _; omega
  | succ nn ih =>
      intro i k hik hkn hfree hk
      rcases Nat.eq_or_lt_of_le hik with heq | hlt
      · -- the interrupt fires at the current step
        subst heq
        rcases joint with _ | _
        · -- non-fused: `polledAt` is `int1 i || int2 i`
          simp only [polledAt, Bool.false_eq_true, if_false] at hk
          rcases h1 : int1 i with _ | _
          · rcases h2 : int2 i with _ | _
            · rw [h1, h2] at hk
              simp at hk
            · refine ⟨?_, ?_⟩
              · simp [sampleLoop, h1, h2]
              · intro m hm
                simp [sampleLoop, h1, h2] at hm
          · refine ⟨?_, ?_⟩
            · simp [sampleLoop, h1]
            · intro m hm
              simp [sampleLoop, h1] at hm
        · simp only [polledAt, if_true] at hk
          refine ⟨?_, ?_⟩
          · simp [sampleLoop, hk]
          · intro m hm
            simp [sampleLoop, hk] at hm
      · -- the current step completes; recurse
        have hfi : polledAt joint int1 int2 i = false := hfree i (le_refl i) hlt
        have hrec := ih (i + 1) k (by omega) (by omega)
          (fun j hj1 hj2 => hfree j (by omega) hj2) hk
        rcases joint with _ | _
        · obtain ⟨h1, h2⟩ : int1 i = false ∧ int2 i = false := by
            simpa [polledAt] using hfi
          refine ⟨?_, ?_⟩
          · simp only [sampleLoop, h1, h2, Bool.false_eq_true, if_false]
            exact hrec.1
          · intro m hm
            simp only [sampleLoop, h1, h2, Bool.false_eq_true, if_false] at hm
            simp at hm
            rcases hm with rfl | h
            · omega
            · have := hrec.2 m h
              omega
        · have h1 : int1 i = false := by
            simpa [polledAt] using hfi
          refine ⟨?_, ?_⟩
          · simp only [sampleLoop, h1, Bool.false_eq_true, if_false]
            exact hrec.1
          · intro m hm
            simp only [sampleLoop, h1, Bool.false_eq_true, if_false] at hm
            simp at hm
            rcases hm with rfl | h
            · omega
            · have := hrec.2 m h
              omega

/-- **C2, counterexample.**  The claim asserts the unsupported-solver
error is raised before any tensor allocation.  With
`sample_solver = "euler"` the call does raise, but the trace preceding
the raise already contains the image, noise and mask allocations (lines
215-242 run before the solver-name check at lines 293-312). -/
theorem claim_C2_counterexample :
    (generateRun "euler" 40 false (fun _ => false) (fun _ => false) 0).2 =
        GenResult.raised ∧
      ¬ noAllocBeforeRaise
        (generateRun "euler" 40 false (fun _ => false) (fun _ => false) 0).1 := by
  constructor
  · rfl
  · unfold noAllocBeforeRaise
    decide

/-- **C2, amended.**  For every call of `generate` with a
`sample_solver` other than `'unipc'` or `'dpm++'`, a fatal configuration
error (`NotImplementedError`) is raised before the sampling loop begins:
no solver step is performed and nothing is decoded.  The raise happens
only after preprocessing, so the initial tensor allocations (image,
noise, mask, encodings) have already been performed. -/
theorem claim_C2_amended (sample_solver : String) (S : ℕ) (joint : Bool)
    (int1 int2 : ℕ → Bool) (rank : ℕ)
    (hsolver : solverSupported sample_solver = false) :
    (generateRun sample_solver S joint int1 int2 rank).2 = GenResult.raised ∧
      Ev.raiseUnsupported ∈ (generateRun sample_solver S joint int1 int2 rank).1 ∧
      (∀ i, Ev.solverStep i ∉ (generateRun sample_solver S joint int1 int2 rank).1) ∧
      Ev.decode ∉ (generateRun sample_solver S joint int1 int2 rank).1 := by
  unfold generateRun
  rw [hsolver]
  simp [preEvents]

theorem claim_C2_amended_witness :
    (generateRun "euler" 40 false (fun _ => false) (fun _ => false) 0).2 =
        GenResult.raised ∧
      Ev.raiseUnsupported ∈
        (generateRun "euler" 40 false (fun _ => false) (fun _ => false) 0).1 ∧
      (∀ i, Ev.solverStep i ∉
        (generateRun "euler" 40 false (fun _ => false) (fun _ => false) 0).1) ∧
      Ev.decode ∉ (generateRun "euler" 40 false (fun _ => false) (fun _ => false) 0).1 :=
  claim_C2_amended "euler" 40 false (fun _ => false) (fun _ => false) 0 (by decide)

/-- **C7.**  If the cancellation flag is observed true at the polls of
step `k < S - 1` (and was false at every earlier poll), the sampling
loop returns the no-result sentinel (`None`): no solver step is invoked
for step `k` or any later step, and no decode happens, so no partial
video output is produced. -/
theorem claim_C7_cancellation (sample_solver : String) (S : ℕ) (joint : Bool)
    (int1 int2 : ℕ → Bool) (rank k : ℕ)
    (hsolver : solverSupported sample_solver = true)
    (hk : k + 1 < S)
    (hfree : ∀ j, j < k → polledAt joint int1 int2 j = false)
    (hpoll : polledAt joint int1 int2 k = true) :
    (generateRun sample_solver S joint int1 int2 rank).2 = GenResult.noResult ∧
      (∀ m, Ev.solverStep m ∈ (generateRun sample_solver S joint int1 int2 rank).1 →
        m < k) ∧
      Ev.decode ∉ (generateRun sample_solver S joint int1 int2 rank).1 := by
  have hloop := sampleLoop_interrupt joint int1 int2 S 0 k (by omega) (by omega)
    (fun j _ hj => hfree j hj) hpoll
  unfold generateRun
  rw [hsolver]
  simp only [if_true]
  rw [hloop.1]
  refine ⟨rfl, ?_, ?_⟩
  · intro m hm
    simp only [List.mem_append, List.mem_cons] at hm
    rcases hm with h | h | h
    · simp [preEvents] at h
    · cases h
    · exact (hloop.2 m h).2
  · intro hd
    simp only [List.mem_append, List.mem_cons] at hd
    rcases hd with h | h | h
    · simp [preEvents] at h
    · cases h
    · exact sampleLoop_no_decode joint int1 int2 S 0 h

theorem claim_C7_cancellation_witness :
    (generateRun "unipc" 3 false (fun i => decide (i = 1)) (fun _ => false) 0).2 =
        GenResult.noResult ∧
      (∀ m, Ev.solverStep m ∈
        (generateRun "unipc" 3 false (fun i => decide (i = 1)) (fun _ => false) 0).1 →
        m < 1) ∧
      Ev.decode ∉
        (generateRun "unipc" 3 false (fun i => decide (i = 1)) (fun _ => false) 0).1 :=
  claim_C7_cancellation "unipc" 3 false (fun i => decide (i = 1)) (fun _ => false) 0 1
    (by decide) (by decide) (by decide) (by decide)

/-- **C9.**  When the sampling loop completes without interruption, the
decoded video is produced only on process rank 0: every other rank skips
the VAE decode entirely and `generate` returns `None`. -/
theorem claim_C9_rank (sample_solver : String) (S : ℕ) (joint : Bool)
    (int1 int2 : ℕ → Bool) (rank : ℕ)
    (hsolver : solverSupported sample_solver = true)
    (hdone : (sampleLoop joint int1 int2 0 S).2 = some ())
    (hrank : rank ≠ 0) :
    (generateRun sample_solver S joint int1 int2 rank).2 = GenResult.noResult ∧
      Ev.decode ∉ (generateRun sample_solver S joint int1 int2 rank).1 := by
  unfold generateRun
  rw [hsolver]
  simp only [if_true]
  rw [hdone]
  simp only [if_neg hrank]
  refine ⟨by trivial, ?_⟩
  intro hd
  simp only [List.mem_append, List.mem_cons] at hd
  rcases hd with h | h | h
  · simp [preEvents] at h
  · cases h
  · exact sampleLoop_no_decode joint int1 int2 S 0 h

theorem claim_C9_rank_witness :
    (generateRun "unipc" 2 false (fun _ => false) (fun _ => false) 1).2 =
        GenResult.noResult ∧
      Ev.decode ∉ (generateRun "unipc" 2 false (fun _ => false) (fun _ => false) 1).1 :=
  claim_C9_rank "unipc" 2 false (fun _ => false) (fun _ => false) 1
    (by decide) (by decide) (by decide)


/-- **C6.**  The selective-layer set is passed to the unconditional
forward evaluation exactly when
`floor(slg_start * S) ≤ i < floor(slg_end * S)` (Python `int(·)`
truncates, which on the nonnegative window fractions is the floor), and
outside the window no selective-layer set is passed; in particular for
`S = 40`, `slg_start = 0.0`, `slg_end = 0.5` the window is active for
steps `0..19` and inactive from step `20` on. -/
theorem claim_C6_slg_window (L : List ℕ) (s e : ℚ) (S i : ℕ)
    (hs : 0 ≤ s) (he : 0 ≤ e) :
    (slgLayersLocal (some L) s e S i = some L ↔
      ⌊s * (S : ℚ)⌋ ≤ (i : ℤ) ∧ (i : ℤ) < ⌊e * (S : ℚ)⌋) ∧
      (¬ (⌊s * (S : ℚ)⌋ ≤ (i : ℤ) ∧ (i : ℤ) < ⌊e * (S : ℚ)⌋) →
        slgLayersLocal (some L) s e S i = none) ∧
      (slgLayersLocal (some L) 0 (1 / 2) 40 i =
        if i ≤ 19 then some L else none) := by
  have hps : pyInt (s * (S : ℚ)) = ⌊s * (S : ℚ)⌋ := by
    unfold pyInt
    rw [if_pos (mul_nonneg hs (Nat.cast_nonneg S))]
  have hpe : pyInt (e * (S : ℚ)) = ⌊e * (S : ℚ)⌋ := by
    unfold pyInt
    rw [if_pos (mul_nonneg he (Nat.cast_nonneg S))]
  refine ⟨?_, ?_, ?_⟩
  · unfold slgLayersLocal
    rw [hps, hpe]
    split
    · simp [*]
    · simp [*]
  · intro h
    unfold slgLayersLocal
    rw [hps, hpe, if_neg h]
  · have h0 : pyInt ((0 : ℚ) * ((40 : ℕ) : ℚ)) = 0 := by
      norm_num [pyInt]
    have h20 : pyInt ((1 / 2 : ℚ) * ((40 : ℕ) : ℚ)) = 20 := by
      norm_num [pyInt]
    unfold slgLayersLocal
    rw [h0, h20]
    by_cases hi : i ≤ 19
    · rw [if_pos (by omega), if_pos hi]
    · rw [if_neg (by omega), if_neg hi]

theorem claim_C6_slg_window_witness :
    slgLayersLocal (some [9]) 0 (1 / 2) 40 5 =
      if 5 ≤ 19 then some [9] else none :=
  (claim_C6_slg_window [9] 0 (1 / 2) 40 5 (by norm_num) (by norm_num)).2.2

/-- **C8.**  With an end-anchor image and `add_frames_for_end_image`,
`frame_num` is incremented by exactly one before mask and noise
construction, the latent frame count is recomputed as `(F-1)/4 + 2`
(which feeds both the noise tensor's temporal size and, through the
incremented `frame_num`, the conditioning mask), and the decoded video
has its last frame sliced off before being returned. -/
theorem claim_C8_end_frame (F lat_h lat_w : ℕ) (v : List (List ℚ)) :
    frameNumFinal F true true = F + 1 ∧
      latFramesFinal F true true 4 = (F - 1) / 4 + 2 ∧
      generateMsk F lat_h lat_w true true =
        mskFinal (buildMsk (F + 1) lat_h lat_w true true) ∧
      trimVideo v true true = v.dropLast ∧
      (trimVideo v true true).length = v.length - 1 := by
  refine ⟨rfl, ?_, rfl, rfl, ?_⟩
  · have hlf : latFramesFinal F true true 4 = (F + 1 - 2) / 4 + 2 := rfl
    rw [hlf]
    omega
  · have ht : trimVideo v true true = v.dropLast := rfl
    rw [ht, List.length_dropLast]

/-- **C10.**  For a nonnegative `seed`, the initial noise latent is a
deterministic function of `(seed, lat_frames, lat_h, lat_w)` — the value
of the fresh `random.randint` draw is irrelevant, so two calls with
identical inputs draw identical noise; for a negative `seed` the
effective seed is the freshly drawn one instead. -/
theorem claim_C10_seed (seed : ℤ) (d1 d2 : ℕ) (f h w : ℕ) :
    (0 ≤ seed → initialNoise seed d1 f h w = initialNoise seed d2 f h w) ∧
      (seed < 0 → effectiveSeed seed d1 = (d1 : ℤ)) := by
  constructor
  · intro hsd
    simp [initialNoise, effectiveSeed, hsd]
  · intro hsd
    unfold effectiveSeed
    rw [if_neg (by omega)]

theorem claim_C10_seed_witness :
    initialNoise 7 3 2 2 2 = initialNoise 7 5 2 2 2 ∧
      effectiveSeed (-3) 3 = (3 : ℤ) :=
  ⟨(claim_C10_seed 7 3 5 2 2 2).1 (by decide),
    (claim_C10_seed (-3) 3 5 2 2 2).2 (by decide)⟩

end WanI2V
